import Mathlib

/-!
Verification development for the vmariachi repository: a small assembler
(src/assembler/parser.rs, src/assembler/assembler.rs) and a register-based
virtual machine (src/vm.rs, src/instruction.rs), embedded shallowly.

Modelling conventions:
* Machine bytes are `Nat` (always < 256 in the Rust sources, where they are
  `u8`); `i32` register values are `Int` with explicit range checks where
  the Rust arithmetic would panic; `usize` casts reduce modulo 2^64.
* Rust panics (out-of-bounds indexing, arithmetic overflow in the default
  debug profile, division by zero) are modelled as `Option.none`.
* Output to stdout/stderr (diagnostics) is not modelled; only the state
  effects and control flow of each function are.
-/

/-- Opcode: the instruction-set enumeration.  src/instruction.rs declares
the variants LOAD .. JNEQ and the IGL sentinel; src/vm.rs additionally
matches on ALOC, INC and DEC (bytes 17, 18, 19), which are absent from
src/instruction.rs as given (the crate does not compile as shipped).
Modelled from the spec: the closed ordered enumeration of the 20 opcodes
LOAD .. DEC plus the sentinel IGL. -/
inductive Opcode where
  | LOAD | ADD | SUB | MUL | DIV | HLT | JMP | JMPF | JMPB
  | EQ | NEQ | GT | LT | GTE | LTE | JEQ | JNEQ | ALOC | INC | DEC
  | IGL
deriving Repr, DecidableEq

/-- Mnemonic table, `impl From<&str> for Opcode` in src/instruction.rs:
exactly the 17 mnemonics "load" .. "jneq" are recognized; every other
string (including "aloc", "inc", "dec") maps to the IGL sentinel. -/
def Opcode.fromStr : String → Opcode
  | "load" => .LOAD
  | "add" => .ADD
  | "sub" => .SUB
  | "mul" => .MUL
  | "div" => .DIV
  | "hlt" => .HLT
  | "jmp" => .JMP
  | "jmpf" => .JMPF
  | "jmpb" => .JMPB
  | "eq" => .EQ
  | "neq" => .NEQ
  | "gt" => .GT
  | "lt" => .LT
  | "gte" => .GTE
  | "lte" => .LTE
  | "jeq" => .JEQ
  | "jneq" => .JNEQ
  | _ => .IGL

/-- Byte decode table, `impl From<u8> for Opcode` in src/vm.rs: bytes 0-19
decode to the 20 opcodes in order; any other byte decodes to IGL. -/
def Opcode.fromU8 : Nat → Opcode
  | 0 => .LOAD
  | 1 => .ADD
  | 2 => .SUB
  | 3 => .MUL
  | 4 => .DIV
  | 5 => .HLT
  | 6 => .JMP
  | 7 => .JMPF
  | 8 => .JMPB
  | 9 => .EQ
  | 10 => .NEQ
  | 11 => .GT
  | 12 => .LT
  | 13 => .GTE
  | 14 => .LTE
  | 15 => .JEQ
  | 16 => .JNEQ
  | 17 => .ALOC
  | 18 => .INC
  | 19 => .DEC
  | _ => .IGL

/-- Numeric code of an opcode (the Rust enum discriminant, used by
`to_bytes` as `opcode as u8`).  Modelled from the spec: the stable codes
0-19 in declaration order.  The stale enum in src/instruction.rs would
give IGL discriminant 17 (it lacks ALOC, INC, DEC); here the sentinel IGL
receives the next code 20.  No claim depends on the encoded value of IGL. -/
def Opcode.code : Opcode → Nat
  | .LOAD => 0
  | .ADD => 1
  | .SUB => 2
  | .MUL => 3
  | .DIV => 4
  | .HLT => 5
  | .JMP => 6
  | .JMPF => 7
  | .JMPB => 8
  | .EQ => 9
  | .NEQ => 10
  | .GT => 11
  | .LT => 12
  | .GTE => 13
  | .LTE => 14
  | .JEQ => 15
  | .JNEQ => 16
  | .ALOC => 17
  | .INC => 18
  | .DEC => 19
  | .IGL => 20

/-- Modelled from the spec: `PIE_HEADER_PREFIX`, the fixed 4-byte magic
sequence opening the 64-byte program header.  src/vm.rs imports this
constant from `crate::assembler::assembler`, but no definition of it
appears anywhere under src/; the spec fixes only its shape (4 bytes).  A
concrete representative value is used here; no theorem depends on the
particular bytes beyond the sequence being fixed and 4 bytes long. -/
def pieHeaderMagic : List Nat := [45, 50, 49, 45]

/-- Modelled from the spec: `PIE_HEADER_LENGTH`, the total header size. -/
def pieHeaderLength : Nat := 64

/-- VM state, struct `VM` in src/vm.rs.  `registers: [i32; 32]` is a list
of `Int` (length 32 in every state the Rust type admits); `program` is the
byte buffer; `heap: Vec<u8>` is only ever resized with zero fill, so just
its length is carried; `remainder` is the `u32` remainder register. -/
structure VM where
  registers : List Int
  program : List Nat
  programCounter : Nat
  heap : Nat
  remainder : Nat
  equalFlag : Bool
deriving Repr, DecidableEq

/-- VM::new: 32 zeroed registers, empty program, counters cleared. -/
def VM.new : VM :=
  { registers := List.replicate 32 0
    program := []
    programCounter := 0
    heap := 0
    remainder := 0
    equalFlag := false }

/-- Signed 32-bit range check: Rust debug-profile arithmetic panics when a
result leaves the `i32` range, modelled as `none`. -/
def checkedI32 (n : Int) : Option Int :=
  if -(2 ^ 31) ≤ n ∧ n < 2 ^ 31 then some n else none

/-- Cast of an `i32` value to `usize` (`as usize`): sign-extend and
reinterpret, i.e. reduce modulo 2^64. -/
def intToUsize (n : Int) : Nat := (n % (2 : Int) ^ 64).toNat

/-- Cast of an `i32` value to `u32` (`as u32`): reduce modulo 2^32. -/
def u32cast (n : Int) : Nat := (n % (2 : Int) ^ 32).toNat

/-- VM::next_8_bits: read the byte at the program counter and advance it
by one; indexing past the end of the buffer panics. -/
def VM.next8 (vm : VM) : Option (Nat × VM) :=
  match vm.program[vm.programCounter]? with
  | some b => some (b, { vm with programCounter := vm.programCounter + 1 })
  | none => none

/-- VM::next_16_bits: big-endian 16-bit read of the two bytes at the
program counter, advancing it by two; either index past the end panics. -/
def VM.next16 (vm : VM) : Option (Nat × VM) :=
  match vm.program[vm.programCounter]?, vm.program[vm.programCounter + 1]? with
  | some b1, some b2 =>
      some (b1 * 256 + b2, { vm with programCounter := vm.programCounter + 2 })
  | _, _ => none

/-- Write to `registers[i]`; an index outside the register file panics. -/
def regSet (rs : List Int) (i : Nat) (v : Int) : Option (List Int) :=
  if i < rs.length then some (rs.set i v) else none

/-- Shared body of the three-register arithmetic arms (ADD, SUB, MUL):
read two source registers and a destination index, apply `f`, store the
checked result. -/
def VM.binArith (vm : VM) (f : Int → Int → Int) : Option (VM × Bool) := do
  let (i1, vm) ← vm.next8
  let a ← vm.registers[i1]?
  let (i2, vm) ← vm.next8
  let b ← vm.registers[i2]?
  let (i3, vm) ← vm.next8
  let r ← checkedI32 (f a b)
  let rs ← regSet vm.registers i3 r
  some ({ vm with registers := rs }, true)

/-- Shared body of the comparison arms (EQ .. LTE): read two registers,
set the equal flag from `f`, then consume the unused padding byte. -/
def VM.cmpArith (vm : VM) (f : Int → Int → Bool) : Option (VM × Bool) := do
  let (i1, vm) ← vm.next8
  let a ← vm.registers[i1]?
  let (i2, vm) ← vm.next8
  let b ← vm.registers[i2]?
  let (_, vm) ← VM.next8 { vm with equalFlag := f a b }
  some (vm, true)

/-- VM::execute_instruction.  `none` is a panic; `some (vm, true)` is the
Rust `Some(())` return (keep running); `some (vm, false)` is the Rust
`None` return (program counter past the end, HLT, or illegal opcode). -/
def VM.step (vm : VM) : Option (VM × Bool) :=
  if h : vm.programCounter < vm.program.length then
    let op := Opcode.fromU8 vm.program[vm.programCounter]
    let vm1 := { vm with programCounter := vm.programCounter + 1 }
    match op with
    | .LOAD => do
        let (idx, vm) ← vm1.next8
        let (num, vm) ← vm.next16
        let rs ← regSet vm.registers idx (num : Int)
        some ({ vm with registers := rs }, true)
    | .ADD => vm1.binArith (· + ·)
    | .SUB => vm1.binArith (· - ·)
    | .MUL => vm1.binArith (· * ·)
    | .DIV => do
        let (i1, vm) ← vm1.next8
        let a ← vm.registers[i1]?
        let (i2, vm) ← vm.next8
        let b ← vm.registers[i2]?
        let (i3, vm) ← vm.next8
        if b = 0 then none
        else do
          let q ← checkedI32 (Int.tdiv a b)
          let rs ← regSet vm.registers i3 q
          some ({ vm with registers := rs, remainder := u32cast (Int.tmod a b) }, true)
    | .HLT => some (vm1, false)
    | .JMP => do
        let (i, vm) ← vm1.next8
        let t ← vm.registers[i]?
        some ({ vm with programCounter := intToUsize t }, true)
    | .JMPF => do
        let (i, vm) ← vm1.next8
        let j ← vm.registers[i]?
        if vm.programCounter + intToUsize j < 2 ^ 64 then
          some ({ vm with programCounter := vm.programCounter + intToUsize j }, true)
        else none
    | .JMPB => do
        let (i, vm) ← vm1.next8
        let j ← vm.registers[i]?
        if intToUsize j ≤ vm.programCounter then
          some ({ vm with programCounter := vm.programCounter - intToUsize j }, true)
        else none
    | .EQ => vm1.cmpArith (fun a b => a = b)
    | .NEQ => vm1.cmpArith (fun a b => a ≠ b)
    | .GT => vm1.cmpArith (fun a b => b < a)
    | .LT => vm1.cmpArith (fun a b => a < b)
    | .GTE => vm1.cmpArith (fun a b => b ≤ a)
    | .LTE => vm1.cmpArith (fun a b => a ≤ b)
    | .JEQ => do
        let (i, vm) ← vm1.next8
        let t ← vm.registers[i]?
        if vm.equalFlag then some ({ vm with programCounter := intToUsize t }, true)
        else some (vm, true)
    | .JNEQ => do
        let (i, vm) ← vm1.next8
        let t ← vm.registers[i]?
        if vm.equalFlag then some (vm, true)
        else some ({ vm with programCounter := intToUsize t }, true)
    | .ALOC => do
        let (i, vm) ← vm1.next8
        let b ← vm.registers[i]?
        if vm.heap + intToUsize b < 2 ^ 64 then
          some ({ vm with heap := vm.heap + intToUsize b }, true)
        else none
    | .INC => do
        let (i, vm) ← vm1.next8
        let v ← vm.registers[i]?
        let v' ← checkedI32 (v + 1)
        let rs ← regSet vm.registers i v'
        some ({ vm with registers := rs }, true)
    | .DEC => do
        let (i, vm) ← vm1.next8
        let v ← vm.registers[i]?
        let v' ← checkedI32 (v - 1)
        let rs ← regSet vm.registers i v'
        some ({ vm with registers := rs }, true)
    | .IGL => some (vm1, false)
  else
    some (vm, false)

/-- VM::has_valid_header: compare `program[..4]` against the magic bytes;
slicing a buffer shorter than 4 bytes panics. -/
def VM.hasValidHeader (vm : VM) : Option Bool :=
  if 4 ≤ vm.program.length then
    some (decide (vm.program.take 4 = pieHeaderMagic))
  else none

/-- The loop of VM::run, `while execute_instruction().is_some() { ... }`:
each iteration executes one instruction as the loop condition and, when it
returned `Some`, executes a second instruction as the loop body whose
result is discarded.  `fuel` bounds the number of iterations (the Rust
loop need not terminate); `none` is a panic or exhausted fuel. -/
def VM.runLoop : Nat → VM → Option VM
  | 0, _ => none
  | fuel + 1, vm =>
    match vm.step with
    | none => none
    | some (vm1, false) => some vm1
    | some (vm1, true) =>
      match vm1.step with
      | none => none
      | some (vm2, _) => VM.runLoop fuel vm2

/-- VM::run: validate the header (reporting and returning unchanged on a
mismatch), set the program counter past the 64-byte header, and loop. -/
def VM.run (fuel : Nat) (vm : VM) : Option VM :=
  match vm.hasValidHeader with
  | none => none
  | some false => some vm
  | some true => VM.runLoop fuel { vm with programCounter := 64 }

/-!
Assembler side: the nom-based parser of src/assembler/parser.rs and the
two-pass assembler of src/assembler/assembler.rs.  A parser is a function
from the remaining input to an optional (value, remaining input) pair,
i.e. `StateT (List Char) Option`; nom's error details are not modelled
(only success/failure and the consumed input matter to the claims).
-/

/-- Parser type: nom's `IResult` with the error contents erased. -/
abbrev P (α : Type) := StateT (List Char) Option α

/-- Run a parser on a string, returning the value and the remainder. -/
def P.runStr (p : P α) (s : String) : Option (α × List Char) := p s.data

/-- nom `tag`: expect a literal string. -/
def pTag (t : String) : P Unit := fun s =>
  if s.take t.length = t.data then some ((), s.drop t.length) else none

/-- nom `char`: expect one given character. -/
def pChar (c : Char) : P Unit := fun s =>
  match s with
  | c' :: rest => if c' = c then some ((), rest) else none
  | [] => none

/-- One-or-more characters satisfying `f` (nom `alpha1`, `digit1`,
`alphanumeric1`), returned as a string. -/
def pTakeWhile1 (f : Char → Bool) : P String := fun s =>
  let t := s.takeWhile f
  if t.isEmpty then none else some (String.mk t, s.drop t.length)

/-- Zero-or-more characters satisfying `f` (nom `space0`, `multispace0`). -/
def pTakeWhile0 (f : Char → Bool) : P Unit := fun s =>
  some ((), s.drop (s.takeWhile f).length)

/-- Worker for `pTakeUntil`: scan for the literal `td`, accumulating the
characters before it. -/
def pTakeUntilGo (td : List Char) : List Char → List Char → Option (String × List Char)
  | acc, [] =>
      if ([] : List Char).take td.length = td then some (String.mk acc.reverse, [])
      else none
  | acc, c :: rest =>
      if (c :: rest).take td.length = td then some (String.mk acc.reverse, c :: rest)
      else pTakeUntilGo td (c :: acc) rest

/-- nom `take_until`: consume up to (not including) the first occurrence
of the literal; fail when it never occurs. -/
def pTakeUntil (t : String) : P String := fun s => pTakeUntilGo t.data [] s

/-- nom `opt`: always succeed, consuming nothing on inner failure. -/
def pOpt (p : P α) : P (Option α) := fun s =>
  match p s with
  | some (a, s') => some (some a, s')
  | none => some (none, s)

/-- nom `alt` of two alternatives. -/
def pAlt (p q : P α) : P α := fun s =>
  match p s with
  | some r => some r
  | none => q s

/-- ASCII letters, nom `alpha1`'s character class. -/
def isAsciiAlpha (c : Char) : Bool :=
  ('a' ≤ c ∧ c ≤ 'z') ∨ ('A' ≤ c ∧ c ≤ 'Z')

/-- ASCII letters and digits, nom `alphanumeric1`'s character class. -/
def isAsciiAlphanum (c : Char) : Bool :=
  isAsciiAlpha c ∨ ('0' ≤ c ∧ c ≤ '9')

/-- ASCII digits, nom `digit1`'s character class. -/
def isAsciiDigit (c : Char) : Bool := '0' ≤ c ∧ c ≤ '9'

/-- nom `space0`'s class: space and tab. -/
def isSpaceTab (c : Char) : Bool := c = ' ' ∨ c = '\t'

/-- nom `multispace0`'s class: space, tab, carriage return, newline. -/
def isMultispace (c : Char) : Bool :=
  c = ' ' ∨ c = '\t' ∨ c = '\r' ∨ c = '\n'

/-- Numeric value of a decimal digit string. -/
def digitsToNat (ds : List Char) : Nat :=
  ds.foldl (fun acc c => 10 * acc + (c.toNat - 48)) 0

/-- Rust `str::parse::<u8>` on a digit string: fails above 255. -/
def parseU8 (ds : String) : Option Nat :=
  let n := digitsToNat ds.data
  if n ≤ 255 then some n else none

/-- Rust `str::parse::<i32>` on a digit string: fails above `i32::MAX`. -/
def parseI32 (ds : String) : Option Int :=
  let n := digitsToNat ds.data
  if n ≤ 2147483647 then some (n : Int) else none

/-- Token: the tagged union of src/assembler/parser.rs. -/
inductive Token where
  | opcode (op : Opcode)
  | register (idx : Nat)
  | operand (value : Int)
  | labelDeclaration (name : String)
  | labelUsage (name : String)
  | directive (name : String)
  | stringLit (value : String)
deriving Repr, DecidableEq

/-- Token::parse_opcode: an alphabetic word, lowercased and looked up in
the mnemonic table (unknown words become the IGL opcode, not an error). -/
def Token.parseOpcode : P Token := do
  let w ← pTakeWhile1 isAsciiAlpha
  pure (Token.opcode (Opcode.fromStr (String.mk (w.data.map Char.toLower))))

/-- Token::parse_directive: a dot followed by an alphabetic name. -/
def Token.parseDirective : P Token := do
  pTag "."
  let name ← pTakeWhile1 isAsciiAlpha
  pure (Token.directive name)

/-- Token::parse_register: optional leading spaces, `$`, decimal digits
parsed as `u8`. -/
def Token.parseRegister : P Token := do
  pTakeWhile0 isSpaceTab
  pTag "$"
  let ds ← pTakeWhile1 isAsciiDigit
  match parseU8 ds with
  | some n => pure (Token.register n)
  | none => fun _ => none

/-- Token::parse_operand: optional leading spaces, `#`, decimal digits
parsed as `i32`. -/
def Token.parseOperand : P Token := do
  pTakeWhile0 isSpaceTab
  pTag "#"
  let ds ← pTakeWhile1 isAsciiDigit
  match parseI32 ds with
  | some v => pure (Token.operand v)
  | none => fun _ => none

/-- Token::parse_label_declaration: alphanumeric name, `:`, optional
trailing spaces. -/
def Token.parseLabelDeclaration : P Token := do
  let name ← pTakeWhile1 isAsciiAlphanum
  pTag ":"
  pTakeWhile0 isSpaceTab
  pure (Token.labelDeclaration name)

/-- Token::parse_label_usage: optional leading spaces, `@`, alphanumeric
name. -/
def Token.parseLabelUsage : P Token := do
  pTakeWhile0 isSpaceTab
  pTag "@"
  let name ← pTakeWhile1 isAsciiAlphanum
  pure (Token.labelUsage name)

/-- Token::parse_string: optional leading spaces, then a single-quoted
literal (`take_until` the closing quote, no escapes). -/
def Token.parseString : P Token := do
  pTakeWhile0 isSpaceTab
  pChar (Char.ofNat 39)
  let content ← pTakeUntil (String.mk [Char.ofNat 39])
  pChar (Char.ofNat 39)
  pure (Token.stringLit content)

/-- AssemblerInstruction: one parsed line of assembly. -/
structure AssemblerInstruction where
  opcode : Option Token
  label : Option Token
  directive : Option Token
  operand1 : Option Token
  operand2 : Option Token
  operand3 : Option Token
  stringTok : Option Token
deriving Repr, DecidableEq

/-- AssemblerInstruction::parse_operand: an immediate or a register. -/
def parseOperandSlot : P Token :=
  pAlt Token.parseOperand Token.parseRegister

/-- AssemblerInstruction::parse_opcode: optional label declaration, the
opcode word, optional label usage, up to three operands, optional string;
the label field keeps the declaration when both forms were matched. -/
def AssemblerInstruction.parseOpcodeForm : P AssemblerInstruction := do
  let ldecl ← pOpt Token.parseLabelDeclaration
  let opc ← Token.parseOpcode
  let luse ← pOpt Token.parseLabelUsage
  let o1 ← pOpt parseOperandSlot
  let o2 ← pOpt parseOperandSlot
  let o3 ← pOpt parseOperandSlot
  let _st ← pOpt Token.parseString
  pure { opcode := some opc
         label := match ldecl with | some l => some l | none => luse
         directive := none
         operand1 := o1, operand2 := o2, operand3 := o3
         stringTok := none }

/-- AssemblerInstruction::parse_label: declaration or usage. -/
def parseLabelSlot : P Token :=
  pAlt Token.parseLabelDeclaration Token.parseLabelUsage

/-- AssemblerInstruction::parse_directive: optional label, the directive,
up to three operands, optional string. -/
def AssemblerInstruction.parseDirectiveForm : P AssemblerInstruction := do
  let lab ← pOpt parseLabelSlot
  let dir ← Token.parseDirective
  let o1 ← pOpt parseOperandSlot
  let o2 ← pOpt parseOperandSlot
  let o3 ← pOpt parseOperandSlot
  let st ← pOpt Token.parseString
  pure { opcode := none
         label := lab
         directive := some dir
         operand1 := o1, operand2 := o2, operand3 := o3
         stringTok := st }

/-- AssemblerInstruction::parse: opcode form, else directive form. -/
def AssemblerInstruction.parse : P AssemblerInstruction :=
  pAlt AssemblerInstruction.parseOpcodeForm AssemblerInstruction.parseDirectiveForm

/-- Program: the parsed instruction sequence. -/
structure Program where
  instructions : List AssemblerInstruction
deriving Repr, DecidableEq

/-- Loop of nom `many1` after its first success: repeat `p` until it
fails.  Each successful parse of an instruction consumes at least one
character, so `fuel` at the input length never runs out. -/
def manyLoop (p : P α) : Nat → List Char → List α → List α × List Char
  | 0, s, acc => (acc.reverse, s)
  | fuel + 1, s, acc =>
    match p s with
    | none => (acc.reverse, s)
    | some (a, s') => manyLoop p fuel s' (a :: acc)

/-- nom `many1`: at least one success, then repeat until failure. -/
def pMany1 (p : P α) (fuel : Nat) : P (List α) := fun s =>
  match p s with
  | none => none
  | some (a, s') => some (manyLoop p fuel s' [a])

/-- Program::parse: `many1` of an instruction each terminated by optional
line-ending whitespace. -/
def Program.parse (input : String) : Option (Program × List Char) :=
  let element : P AssemblerInstruction := do
    let i ← AssemblerInstruction.parse
    pTakeWhile0 isMultispace
    pure i
  match pMany1 element (input.length + 1) input.data with
  | some (is, rest) => some ({ instructions := is }, rest)
  | none => none

/-- AssemblerInstruction::operand_to_bytes: a register is one byte, an
immediate is the low 16 bits big-endian, an empty slot nothing, and any
other token is an encoding error. -/
def operandToBytes : Option Token → Except String (List Nat)
  | some (Token.register n) => Except.ok [n]
  | some (Token.operand v) =>
      let val := (v % (2 : Int) ^ 16).toNat
      Except.ok [val / 256, val % 256]
  | none => Except.ok []
  | some _ => Except.error "Opcode found in operand field"

/-- AssemblerInstruction::is_label: any label token is present. -/
def AssemblerInstruction.isLabel (i : AssemblerInstruction) : Bool :=
  i.label.isSome

/-- AssemblerInstruction::label_name: the name when the label token is a
declaration, nothing otherwise. -/
def AssemblerInstruction.labelName (i : AssemblerInstruction) : Option String :=
  match i.label with
  | some (Token.labelDeclaration name) => some name
  | _ => none

/-- AssemblerInstruction::to_bytes: the opcode's numeric code, the
operand bytes of the three slots, zero-padded up to four bytes (longer
encodings are NOT truncated). -/
def AssemblerInstruction.toBytes (i : AssemblerInstruction) : Except String (List Nat) :=
  match i.opcode with
  | some (Token.opcode op) => do
      let o1 ← operandToBytes i.operand1
      let o2 ← operandToBytes i.operand2
      let o3 ← operandToBytes i.operand3
      let bytes := op.code :: (o1 ++ o2 ++ o3)
      Except.ok (bytes ++ List.replicate (4 - bytes.length) 0)
  | _ => Except.error "Non-opcode found in opcode field"

/-- Assembler::extract_labels (pass 1): walk the instructions with a
running byte offset advancing 4 per instruction; record `(name, offset)`
for each instruction whose label token is a declaration. -/
def extractLabelsAux : Nat → List AssemblerInstruction → List (String × Nat)
  | _, [] => []
  | off, i :: rest =>
    (if i.isLabel then
      match i.labelName with
      | some name => [(name, off)]
      | none => []
     else []) ++ extractLabelsAux (off + 4) rest

/-- The symbol table produced by pass 1, starting at offset 0. -/
def extractLabels (instrs : List AssemblerInstruction) : List (String × Nat) :=
  extractLabelsAux 0 instrs

/-- Assembler::process_second_phase: concatenate the per-instruction
encodings, aborting on the first encoding error. -/
def processSecondPhase : List AssemblerInstruction → Except String (List Nat)
  | [] => Except.ok []
  | i :: rest => do
      let bs ← i.toBytes
      let bss ← processSecondPhase rest
      Except.ok (bs ++ bss)

/-- Assembler::assemble: parse (a parse error yields `None`), run pass 1
(its symbol table is built but not used by the emitted bytes), then emit
pass 2's byte buffer.  No header block is prepended. -/
def Assembler.assemble (raw : String) : Option (List Nat) :=
  match Program.parse raw with
  | none => none
  | some (prog, _rest) =>
      let _symbols := extractLabels prog.instructions
      match processSecondPhase prog.instructions with
      | Except.ok bytes => some bytes
      | Except.error _ => none

/-!
Concrete states and auxiliary definitions used by the claim theorems.
-/

/-- Operand-slot shape produced by the parser: empty, a register token,
or an immediate token (`parse_operand` admits nothing else). -/
def OperandLike : Option Token → Prop
  | none => True
  | some (Token.register _) => True
  | some (Token.operand _) => True
  | _ => False

/-- Encoded size of an operand slot: registers one byte, immediates two. -/
def operandSlotSize : Option Token → Nat
  | some (Token.register _) => 1
  | some (Token.operand _) => 2
  | _ => 0

/-- The parsed AST of `load $r #v` for a register index and an immediate. -/
def mkLoadInstr (r v : Nat) : AssemblerInstruction :=
  ⟨some (Token.opcode Opcode.LOAD), none, none,
   some (Token.register r), some (Token.operand (v : Int)), none, none⟩

/-- A VM whose program is a valid header followed by the raw bytes
INC $0; HLT; INC $1; HLT (each opcode followed only by the operand bytes
it actually consumes). -/
def vmHltMid : VM :=
  { VM.new with program := pieHeaderMagic ++ List.replicate 60 0 ++ [18, 0, 5, 18, 1, 5] }

/-- A VM with four buffer bytes that do not match the magic sequence. -/
def vmBadHeader : VM := { VM.new with program := [9, 9, 9, 9] }

/-- The parsed AST of `load #1 #1 #1`: three immediate operands. -/
def instrThreeImm : AssemblerInstruction :=
  ⟨some (Token.opcode Opcode.LOAD), none, none,
   some (Token.operand 1), some (Token.operand 1), some (Token.operand 1), none⟩

/-- The parsed AST of `load $0 #500`. -/
def instrLoadW : AssemblerInstruction :=
  ⟨some (Token.opcode Opcode.LOAD), none, none,
   some (Token.register 0), some (Token.operand 500), none, none⟩

/-- A VM about to execute JEQ $2 with the equal flag clear. -/
def vmJeqCe : VM :=
  { VM.new with
      registers := (List.replicate 32 0).set 2 40
      program := [15, 2, 0, 0] }

/-- A VM about to execute JEQ $2 with the equal flag clear (witness copy). -/
def vmJeqW : VM :=
  { VM.new with
      registers := (List.replicate 32 0).set 2 40
      program := [15, 2, 0, 0] }

/-- A VM about to execute DIV $0 $1 $2 with registers 0 and 1 holding
-1 and 2. -/
def vmDivCe : VM :=
  { VM.new with
      registers := ((List.replicate 32 0).set 0 (-1)).set 1 2
      program := [4, 0, 1, 2] }

/-- A VM about to execute DIV $0 $1 $2 with registers 0 and 1 holding
500 and 6. -/
def vmDivW : VM :=
  { VM.new with
      registers := ((List.replicate 32 0).set 0 500).set 1 6
      program := [4, 0, 1, 2] }

/-- A VM about to execute the encoded LOAD $1 #500 record. -/
def vmLoadW : VM := { VM.new with program := [0, 1, 1, 244] }

/-- A VM whose one-byte program is a bare LOAD opcode with no operand
bytes behind it. -/
def vmOob : VM := { VM.new with program := [0] }

/-!
Helper lemmas shared by the claim theorems.
-/

/-- Operand encoding of a parser-produced slot always succeeds, with the
slot's encoded size. -/
theorem operandToBytes_ok (t : Option Token) (h : OperandLike t) :
    ∃ bs, operandToBytes t = Except.ok bs ∧ bs.length = operandSlotSize t := by
  match t with
  | none => exact ⟨[], rfl, rfl⟩
  | some (Token.register n) => exact ⟨[n], rfl, rfl⟩
  | some (Token.operand v) => exact ⟨_, rfl, rfl⟩
  | some (Token.opcode op) => exact h.elim
  | some (Token.labelDeclaration n) => exact h.elim
  | some (Token.labelUsage n) => exact h.elim
  | some (Token.directive n) => exact h.elim
  | some (Token.stringLit s) => exact h.elim

/-- Pass 1 with a running offset of `4 * k` produces the entries of the
instructions enumerated from index `k`. -/
theorem extractLabelsAux_eq (instrs : List AssemblerInstruction) :
    ∀ k, extractLabelsAux (4 * k) instrs =
      (List.enumFrom k instrs).filterMap
        (fun p => (p.2.labelName).map (fun n => (n, 4 * p.1))) := by
  induction instrs with
  | nil => intro k; rfl
  | cons i rest ih =>
    intro k
    have h4 : 4 * k + 4 = 4 * (k + 1) := by ring
    rcases hl : i.label with _ | tok
    · simp [extractLabelsAux, List.enumFrom, List.filterMap_cons,
        AssemblerInstruction.isLabel, AssemblerInstruction.labelName, hl, h4, ih (k + 1)]
    · cases tok <;>
        simp [extractLabelsAux, List.enumFrom, List.filterMap_cons,
          AssemblerInstruction.isLabel, AssemblerInstruction.labelName, hl, h4, ih (k + 1)]

/-- Truncated division of `i32` values stays in `i32` range except for
the single overflowing pair (minimum value, -1). -/
theorem tdiv_mem_i32 (a b : Int)
    (ha : -(2 ^ 31) ≤ a ∧ a < 2 ^ 31) (hb : -(2 ^ 31) ≤ b ∧ b < 2 ^ 31)
    (hb0 : b ≠ 0) (hov : ¬(a = -(2 ^ 31) ∧ b = -1)) :
    -(2 ^ 31) ≤ Int.tdiv a b ∧ Int.tdiv a b < 2 ^ 31 := by
  have habs : (Int.tdiv a b).natAbs = a.natAbs / b.natAbs := Int.natAbs_tdiv a b
  have hA : a.natAbs ≤ 2 ^ 31 := by omega
  have hle : a.natAbs / b.natAbs ≤ a.natAbs := Nat.div_le_self _ _
  constructor
  · omega
  · by_contra hcon
    push_neg at hcon
    have hq : ((Int.tdiv a b).natAbs : Int) = Int.tdiv a b := by omega
    have hbig : a.natAbs / b.natAbs = 2 ^ 31 := by omega
    have hb1 : b.natAbs = 1 := by
      by_contra hb1
      have hb2 : 2 ≤ b.natAbs := by omega
      have : a.natAbs / b.natAbs ≤ a.natAbs / 2 :=
        Nat.div_le_div_left hb2 (by omega)
      omega
    have haMax : a = -(2 ^ 31) := by omega
    have hbv : b = 1 := by omega
    subst hbv haMax
    rw [Int.tdiv_one] at hcon
    omega

/-!
Claim theorems.
-/

/-- Claim C1 (code bug): the claim states that once `run()` executes a
HLT no further instruction is executed.  The code violates this: the run
loop executes two instructions per iteration and discards the halt signal
of the second.  On a valid-header program whose raw instruction bytes are
INC $0; HLT; INC $1; HLT, the INC $1 after the first HLT is still
executed, so register 1 finishes at 1 (stopping at the first HLT would
leave it 0). -/
theorem c1_hlt_in_loop_body_ignored :
    (VM.run 10 vmHltMid).map (fun v => v.registers.take 2) = some [1, 1] := by rfl

/-- Claim C2 (code bug): the claim states that `assemble` returns a
buffer beginning with the 64-byte magic-prefixed header.  The code emits
only the 4-byte instruction records: assembling `load $0 #500` yields
exactly the four bytes [0, 0, 1, 244], which cannot begin with any
64-byte header. -/
theorem c2_assemble_prepends_no_header :
    Assembler.assemble "load $0 #500" = some [0, 0, 1, 244] ∧
    ([0, 0, 1, 244] : List Nat).take pieHeaderLength ≠
      pieHeaderMagic ++ List.replicate 60 0 := by
  exact ⟨by rfl, by decide⟩

/-- Claim C3 (code bug): the claim states that all 20 mnemonics round
trip with codes 0-19.  The mnemonic table of src/instruction.rs lacks
"aloc", "inc" and "dec" (they parse to IGL), while the byte decoder of
src/vm.rs maps 17 to ALOC: the round trip is broken at "aloc". -/
theorem c3_missing_mnemonics :
    Opcode.fromStr "aloc" = Opcode.IGL ∧ Opcode.fromU8 17 = Opcode.ALOC ∧
      Opcode.IGL ≠ Opcode.ALOC := by
  exact ⟨rfl, rfl, by decide⟩

/-- Claim C4, counterexample: on a buffer shorter than 4 bytes (the fresh
VM's empty program), `run()` does not report a header error and leave the
state unchanged as the claim states; slicing `program[..4]` panics. -/
theorem c4_short_buffer_panics :
    VM.run 5 VM.new = none ∧ VM.run 5 VM.new ≠ some VM.new := by
  exact ⟨rfl, by decide⟩

/-- Claim C4 (amended): for buffers of at least 4 bytes, `run()` reports
and returns with the state untouched when the first 4 bytes differ from
the magic sequence, and otherwise starts the execute loop with the
program counter at 64. -/
theorem c4_header_gate (vm : VM) (fuel : Nat) (h : 4 ≤ vm.program.length) :
    (vm.program.take 4 ≠ pieHeaderMagic → VM.run fuel vm = some vm) ∧
    (vm.program.take 4 = pieHeaderMagic →
      VM.run fuel vm = VM.runLoop fuel { vm with programCounter := 64 }) := by
  unfold VM.run VM.hasValidHeader
  rw [if_pos h]
  constructor <;> intro hx <;> simp [hx]

/-- Claim C4, witness: a 4-byte buffer [9, 9, 9, 9] mismatches the magic
sequence and `run` returns the state unchanged. -/
theorem c4_header_gate_witness : VM.run 3 vmBadHeader = some vmBadHeader :=
  (c4_header_gate vmBadHeader 3 (by decide)).1 (by decide)

/-- Claim C5, counterexample: `load #1 #1 #1` parses, and its `to_bytes`
is seven bytes, not four — padding never truncates an over-long record. -/
theorem c5_three_immediates_not_four_bytes :
    P.runStr AssemblerInstruction.parse "load #1 #1 #1" = some (instrThreeImm, []) ∧
    instrThreeImm.toBytes = Except.ok [0, 0, 1, 0, 1, 0, 1] ∧
    ([0, 0, 1, 0, 1, 0, 1] : List Nat).length ≠ 4 := by
  exact ⟨by rfl, by rfl, by decide⟩

/-- Claim C5 (amended): for an instruction whose opcode field holds an
opcode token and whose operand slots are empty, register or immediate
tokens, `to_bytes` succeeds with length `max 4 (1 + total operand size)`:
exactly 4 when the encoded operands fit in three bytes, longer otherwise. -/
theorem c5_to_bytes_length (i : AssemblerInstruction) (op : Opcode)
    (h0 : i.opcode = some (Token.opcode op))
    (h1 : OperandLike i.operand1) (h2 : OperandLike i.operand2)
    (h3 : OperandLike i.operand3) :
    ∃ bs, i.toBytes = Except.ok bs ∧
      bs.length = max 4 (1 + operandSlotSize i.operand1 + operandSlotSize i.operand2
        + operandSlotSize i.operand3) := by
  obtain ⟨b1, e1, l1⟩ := operandToBytes_ok _ h1
  obtain ⟨b2, e2, l2⟩ := operandToBytes_ok _ h2
  obtain ⟨b3, e3, l3⟩ := operandToBytes_ok _ h3
  refine ⟨(op.code :: (b1 ++ b2 ++ b3))
      ++ List.replicate (4 - (op.code :: (b1 ++ b2 ++ b3)).length) 0, ?_, ?_⟩
  · unfold AssemblerInstruction.toBytes
    rw [h0]
    simp only [e1, e2, e3, bind, Except.bind]
  · simp only [List.length_append, List.length_cons, List.length_replicate, l1, l2, l3]
    omega

/-- Claim C5, witness: the parsed `load $0 #500` (one register, one
immediate) encodes to exactly `max 4 (1 + 1 + 2 + 0) = 4` bytes. -/
theorem c5_to_bytes_length_witness :
    ∃ bs, instrLoadW.toBytes = Except.ok bs ∧ bs.length = max 4 (1 + 1 + 2 + 0) :=
  c5_to_bytes_length instrLoadW Opcode.LOAD rfl trivial trivial trivial

/-- Claim C6, counterexample: executing JEQ $2 with the equal flag clear
is not a no-op on the program counter as the claim states — the counter
advances from 0 to 2 (past the opcode and operand bytes). -/
theorem c6_jeq_false_still_moves_pc :
    vmJeqCe.equalFlag = false ∧ vmJeqCe.programCounter = 0 ∧
      (VM.step vmJeqCe).map (fun p => p.1.programCounter) = some 2 := by
  exact ⟨rfl, rfl, rfl⟩

/-- Claim C6 (amended): one JEQ (opcode 15) step sets the program counter
to `registers[r]` exactly when the equal flag is set, and otherwise
advances it by 2; one JNEQ (opcode 16) step does the same with the flag's
polarity reversed. -/
theorem c6_jeq_jneq_pc (vm : VM) (r : Nat)
    (hr : vm.program[vm.programCounter + 1]? = some r)
    (hreg : r < vm.registers.length) :
    (vm.program[vm.programCounter]? = some 15 →
      VM.step vm = some ({ vm with programCounter :=
        (if vm.equalFlag then intToUsize (vm.registers.get ⟨r, hreg⟩)
         else vm.programCounter + 2) }, true)) ∧
    (vm.program[vm.programCounter]? = some 16 →
      VM.step vm = some ({ vm with programCounter :=
        (if vm.equalFlag then vm.programCounter + 2
         else intToUsize (vm.registers.get ⟨r, hreg⟩)) }, true)) := by
  constructor <;> intro h0 <;>
  · have hlt : vm.programCounter < vm.program.length := (List.getElem?_eq_some.mp h0).1
    have hget := (List.getElem?_eq_some.mp h0).2
    unfold VM.step
    rw [dif_pos hlt, hget]
    unfold VM.next8
    simp only [Opcode.fromU8]
    simp only [hr, List.getElem?_eq_getElem hreg, List.get_eq_getElem, bind, Option.bind]
    cases hf : vm.equalFlag <;> simp

/-- Claim C6, witness: JEQ $2 with the flag clear advances the counter
from 0 to 2. -/
theorem c6_jeq_jneq_pc_witness :
    VM.step vmJeqW = some ({ vmJeqW with programCounter := 2 }, true) :=
  (c6_jeq_jneq_pc vmJeqW 2 (by decide) (by decide)).1 (by decide)

/-- Claim C7, counterexample: DIV with register values -1 and 2 leaves
4294967295 in the unsigned remainder register, not `a % b = -1` as the
claim states (the negative remainder is cast to u32). -/
theorem c7_negative_remainder_cast :
    (VM.step vmDivCe).map (fun p => (p.1.remainder : Int)) = some 4294967295 ∧
      Int.tmod (-1) 2 = -1 ∧ ((4294967295 : Int) ≠ -1) := by
  exact ⟨rfl, rfl, by decide⟩

/-- Claim C7 (amended): for in-range register values `a`, `b` with
`b ≠ 0` and `(a, b) ≠ (-2^31, -1)` (that pair overflows and panics, as
does `b = 0`), DIV r1 r2 r3 stores the truncated quotient in register r3,
stores the u32 cast of the truncated remainder `a % b` in the remainder
register, leaves every other register unchanged, and advances the program
counter past the 4-byte record. -/
theorem c7_div_step (vm : VM) (r1 r2 r3 : Nat) (a b : Int)
    (hlen : vm.registers.length = 32)
    (h0 : vm.program[vm.programCounter]? = some 4)
    (h1 : vm.program[vm.programCounter + 1]? = some r1)
    (h2 : vm.program[vm.programCounter + 2]? = some r2)
    (h3 : vm.program[vm.programCounter + 3]? = some r3)
    (hr1 : r1 < 32) (hr2 : r2 < 32) (hr3 : r3 < 32)
    (hva : vm.registers.getD r1 0 = a) (hvb : vm.registers.getD r2 0 = b)
    (haR : -(2 ^ 31) ≤ a ∧ a < 2 ^ 31) (hbR : -(2 ^ 31) ≤ b ∧ b < 2 ^ 31)
    (hb0 : b ≠ 0) (hov : ¬(a = -(2 ^ 31) ∧ b = -1)) :
    VM.step vm = some ({ vm with
      programCounter := vm.programCounter + 4
      registers := vm.registers.set r3 (Int.tdiv a b)
      remainder := u32cast (Int.tmod a b) }, true) := by
  have hlt : vm.programCounter < vm.program.length := (List.getElem?_eq_some.mp h0).1
  have hget := (List.getElem?_eq_some.mp h0).2
  have hq := tdiv_mem_i32 a b haR hbR hb0 hov
  have hga : vm.registers[r1]? = some a := by
    rw [List.getElem?_eq_getElem (by omega)]
    rw [List.getD_eq_getElem vm.registers 0 (show r1 < vm.registers.length by omega)] at hva
    simp [hva]
  have hgb : vm.registers[r2]? = some b := by
    rw [List.getElem?_eq_getElem (by omega)]
    rw [List.getD_eq_getElem vm.registers 0 (show r2 < vm.registers.length by omega)] at hvb
    simp [hvb]
  unfold VM.step
  rw [dif_pos hlt, hget]
  unfold VM.next8
  simp only [Opcode.fromU8]
  simp only [h1, h2, h3, hga, hgb, bind, Option.bind]
  rw [if_neg hb0]
  simp only [checkedI32, if_pos hq, bind, Option.bind, regSet, hlen]
  rw [if_pos hr3]

/-- Claim C7, witness: DIV of 500 by 6 stores quotient 83 in register 2
and remainder 2, matching the repository's own division test. -/
theorem c7_div_step_witness :
    VM.step vmDivW = some ({ vmDivW with
      programCounter := 4
      registers := vmDivW.registers.set 2 83
      remainder := 2 }, true) :=
  c7_div_step vmDivW 0 1 2 500 6 (by decide) (by decide) (by decide) (by decide)
    (by decide) (by decide) (by decide) (by decide) (by decide) (by decide)
    (by decide) (by decide) (by decide) (by decide)

/-- Claim C8 (confirmed): assembling `load $0 #500` yields exactly
[0, 0, 1, 244]; and for every register index below 32 and immediate below
2^16, the LOAD record encodes as opcode byte, register byte, then the
immediate big-endian, and executing it loads the zero-extended immediate
into the register. -/
theorem c8_load_assemble_and_execute :
    Assembler.assemble "load $0 #500" = some [0, 0, 1, 244] ∧
    ∀ r v : Nat, r < 32 → v < 65536 →
      (mkLoadInstr r v).toBytes = Except.ok [0, r, v / 256, v % 256] ∧
      ∀ vm : VM, vm.registers.length = 32 → vm.program = [0, r, v / 256, v % 256] →
        vm.programCounter = 0 →
        VM.step vm = some ({ vm with
          programCounter := 4
          registers := vm.registers.set r (v : Int) }, true) := by
  refine ⟨by rfl, ?_⟩
  intro r v hrlt hvlt
  constructor
  · unfold AssemblerInstruction.toBytes mkLoadInstr operandToBytes
    have hmod : ((v : Int) % 65536).toNat = v := by omega
    simp [bind, Except.bind, Opcode.code, hmod]
  · intro vm hlen hprog hpc
    have hlt : vm.programCounter < vm.program.length := by
      rw [hprog, hpc]; simp
    have hget : vm.program[vm.programCounter] = 0 := by
      simp [hprog, hpc]
    unfold VM.step
    rw [dif_pos hlt, hget]
    simp only [Opcode.fromU8]
    unfold VM.next8 VM.next16
    have e1 : vm.program[vm.programCounter + 1]? = some r := by simp [hprog, hpc]
    have e2 : vm.program[vm.programCounter + 1 + 1]? = some (v / 256) := by simp [hprog, hpc]
    have e3 : vm.program[vm.programCounter + 1 + 1 + 1]? = some (v % 256) := by
      simp [hprog, hpc]
    simp only [e1, e2, e3, bind, Option.bind, regSet, hlen]
    rw [if_pos hrlt]
    have hval : v / 256 * 256 + v % 256 = v := by omega
    simp [hval, hpc]

/-- Claim C8, witness: the encoded LOAD $1 #500 record [0, 1, 1, 244]
executes to registers[1] = 500. -/
theorem c8_load_witness :
    VM.step vmLoadW = some ({ vmLoadW with
      programCounter := 4
      registers := vmLoadW.registers.set 1 500 }, true) :=
  (c8_load_assemble_and_execute.2 1 500 (by decide) (by decide)).2 vmLoadW
    (by decide) (by decide) rfl

/-- Claim C9 (confirmed): pass 1 of the assembler records exactly one
`(name, 4 * k)` entry per instruction index `k` whose label token is a
declaration named `name`; label usages and directives produce no entry
while still occupying their 4-byte slot. -/
theorem c9_symbol_table (instrs : List AssemblerInstruction) :
    extractLabels instrs = instrs.enum.filterMap
      (fun p => (p.2.labelName).map (fun n => (n, 4 * p.1))) := by
  have h := extractLabelsAux_eq instrs 0
  simpa [extractLabels, List.enum] using h

/-- Claim C10 (confirmed): when the opcode byte at the program counter is
LOAD but the 4-byte record would extend past the end of the buffer, the
operand fetch indexes out of bounds and the step panics (it does not halt
gracefully with a diagnostic). -/
theorem c10_truncated_final_load_panics (vm : VM)
    (h0 : vm.program[vm.programCounter]? = some 0)
    (hshort : vm.program.length < vm.programCounter + 4) :
    VM.step vm = none := by
  have hlt : vm.programCounter < vm.program.length :=
    (List.getElem?_eq_some.mp h0).1
  have hget := (List.getElem?_eq_some.mp h0).2
  unfold VM.step
  rw [dif_pos hlt, hget]
  show (do
    let (idx, vm') ← VM.next8 { vm with programCounter := vm.programCounter + 1 }
    let (num, vm') ← vm'.next16
    let rs ← regSet vm'.registers idx (num : Int)
    some ({ vm' with registers := rs }, true) : Option (VM × Bool)) = none
  unfold VM.next8 VM.next16
  rcases h1 : vm.program[vm.programCounter + 1]? with _ | b1
  · simp
  · have h3 : vm.program[vm.programCounter + 1 + 1 + 1]? = none := by
      apply List.getElem?_eq_none
      omega
    simp [h3]

/-- Claim C10, witness: a program whose single byte is the LOAD opcode
panics on the operand fetch. -/
theorem c10_truncated_final_load_panics_witness : VM.step vmOob = none :=
  c10_truncated_final_load_panics vmOob (by decide) (by decide)
